import Mathlib

/-!
Verification development for the pdfx XBlock annotation store
(src/pdfx/pdfx.py).  The definitions below are a shallow embedding of the
annotation save/load/delete/clear handlers:

* `RawAnn` models a JSON annotation dict restricted to the fields the code
  reads (`id`, `type`, `userId`, `timestamp`, `data`, `config`); `none`
  models an absent key.
* `PageVal` models a page value, which the code allows to be either a list
  of annotation dicts or an arbitrary (opaque) dict.
* `PageMap` models a Python dict from page keys to page values, with
  insertion-order semantics (`setPage` updates in place or appends,
  `delPage` removes the key).
* `UserStore` models the five user-scoped XBlock annotation fields plus
  the per-user view settings; `GlobalState` adds the shared
  (content-scoped) staff highlights, the `allow_annotation` settings flag
  (named `allow_annot` here) and a per-user map of stores, reflecting the
  host's user-state field scoping.
-/

namespace Pdfx

/-- The sub-dict stored under an annotation's `data` key, restricted to the
fields the code inspects (`action` and `pageNum` in `_handle_clear_action`),
with an opaque remainder `geom`. -/
structure Payload where
  action : Option String
  pageNum : Option Nat
  geom : String
deriving DecidableEq, Repr

def Payload.empty : Payload := ⟨none, none, ""⟩

/-- A raw JSON annotation dict, restricted to the keys the code reads.
`none` models an absent key. -/
structure RawAnn where
  id : Option String
  typ : Option String
  userId : Option String
  timestamp : Option Nat
  payload : Option Payload
  config : Option String
deriving DecidableEq, Repr

/-- A page value in an annotation field: either a list of annotation dicts
or some other dict (which the code passes through opaquely). -/
inductive PageVal where
  | lst : List RawAnn → PageVal
  | dct : String → PageVal
deriving DecidableEq, Repr

/-- A Python dict from (stringified) page keys to page values. -/
abbrev PageMap := List (String × PageVal)

/-- Dict lookup: first matching key. -/
def lookupPage : PageMap → String → Option PageVal
  | [], _ => none
  | kv :: rest, k => if kv.1 = k then some kv.2 else lookupPage rest k

/-- Dict assignment: update an existing key in place, else append. -/
def setPage : PageMap → String → PageVal → PageMap
  | [], k, v => [(k, v)]
  | kv :: rest, k, v => if kv.1 = k then (k, v) :: rest else kv :: setPage rest k v

/-- Dict `del`: remove the key. -/
def delPage (m : PageMap) (k : String) : PageMap :=
  m.filter (fun kv => kv.1 != k)

/-- The five annotation fields the handlers write to. -/
inductive AnnField where
  | highlights
  | drawing_strokes
  | marker_strokes
  | text_annotations
  | shape_annotations
deriving DecidableEq, Repr

/-- The user-scoped state of the XBlock: the five annotation fields plus
the per-user view settings. -/
structure UserStore where
  highlights : PageMap
  drawing_strokes : PageMap
  marker_strokes : PageMap
  text_annotations : PageMap
  shape_annotations : PageMap
  current_page : Int
  brightness : Int
  is_grayscale : Bool
deriving DecidableEq, Repr

def getField (s : UserStore) : AnnField → PageMap
  | .highlights => s.highlights
  | .drawing_strokes => s.drawing_strokes
  | .marker_strokes => s.marker_strokes
  | .text_annotations => s.text_annotations
  | .shape_annotations => s.shape_annotations

def setField (s : UserStore) : AnnField → PageMap → UserStore
  | .highlights, m => { s with highlights := m }
  | .drawing_strokes, m => { s with drawing_strokes := m }
  | .marker_strokes, m => { s with marker_strokes := m }
  | .text_annotations, m => { s with text_annotations := m }
  | .shape_annotations, m => { s with shape_annotations := m }

/-- The `field_mapping` of `_save_annotation_type`, with its
`shape_annotations` fallback. -/
def saveFieldMapping (t : String) : AnnField :=
  match t with
  | "highlights" | "highlight" => .highlights
  | "drawing_strokes" | "draw" => .drawing_strokes
  | "scribble" | "marker_strokes" => .marker_strokes
  | "text_annotations" | "text" => .text_annotations
  | "shape_annotations" | "shape" | "stamp" => .shape_annotations
  | _ => .shape_annotations

/-- The `field_mapping` of `_handle_deletions` (it lacks the `draw` and
`shape` aliases of the save mapping), with the same fallback. -/
def deletionFieldMapping (t : String) : AnnField :=
  match t with
  | "highlights" | "highlight" => .highlights
  | "drawing_strokes" => .drawing_strokes
  | "scribble" | "marker_strokes" => .marker_strokes
  | "text_annotations" | "text" => .text_annotations
  | "shape_annotations" | "stamp" => .shape_annotations
  | _ => .shape_annotations

/-- Python `str.isdigit` restricted to ASCII digits. -/
def isDigitStr (s : String) : Bool :=
  !s.isEmpty && s.toList.all Char.isDigit

/-- Value of a digit string, as Python `int` computes it. -/
def digitsToNat (s : String) : Nat :=
  s.toList.foldl (fun n c => 10 * n + (c.toNat - 48)) 0

/-- `str(int(page_key)) if page_key.isdigit() else page_key` from
`_validate_annotation_data`. -/
def normPageKey (s : String) : String :=
  if isDigitStr s then toString (digitsToNat s) else s

/-- The generated id for a submitted annotation without one. -/
def genId (now idx : Nat) : String :=
  "ann_" ++ toString now ++ "_" ++ toString idx

/-- The cleaned annotation built by `_validate_annotation_data`: every key
present, `userId` forced to the caller. -/
def cleanAnn (uid : String) (now idx : Nat) (a : RawAnn) : RawAnn :=
  { id := some (a.id.getD (genId now idx)),
    typ := some (a.typ.getD "unknown"),
    userId := some uid,
    timestamp := some (a.timestamp.getD now),
    payload := some (a.payload.getD Payload.empty),
    config := some (a.config.getD "") }

/-- Clean a page list; the generated-id index is the position in the
cleaned list. -/
def cleanPageList (uid : String) (now : Nat) (l : List RawAnn) : List RawAnn :=
  l.enum.map (fun p => cleanAnn uid now p.1 p.2)

/-- One page entry of `_validate_annotation_data`. -/
def validateStep (uid : String) (now : Nat) (acc : PageMap)
    (kv : String × PageVal) : PageMap :=
  match kv.2 with
  | .lst l =>
      let cleaned := cleanPageList uid now l
      if cleaned.isEmpty then acc
      else setPage acc (normPageKey kv.1) (.lst cleaned)
  | .dct s => setPage acc (normPageKey kv.1) (.dct s)

/-- `_validate_annotation_data`: page keys are normalized, list values are
cleaned (dropped when empty), dict values pass through unchanged. -/
def validateAnnotationData (uid : String) (now : Nat)
    (data : List (String × PageVal)) : PageMap :=
  data.foldl (validateStep uid now) []

/-- Replace the first list element whose id equals the new annotation's id;
if no element matches, the list is unchanged (the Python loop breaks only
on a match). -/
def replaceFirst : List RawAnn → RawAnn → List RawAnn
  | [], _ => []
  | a :: rest, n => if a.id = n.id then n :: rest else a :: replaceFirst rest n

/-- One step of the merge loop of `_save_annotation_type`: membership is
tested against the ids of the original existing list. -/
def mergeStep (exIds : List (Option String)) (acc : List RawAnn) (n : RawAnn) :
    List RawAnn :=
  if exIds.contains n.id then replaceFirst acc n else acc ++ [n]

def mergeAux (exIds : List (Option String)) (acc inc : List RawAnn) :
    List RawAnn :=
  inc.foldl (mergeStep exIds) acc

/-- The per-page merge of `_save_annotation_type`: incoming annotations
with a known id replace in place, the rest are appended. -/
def mergePageLists (ex inc : List RawAnn) : List RawAnn :=
  mergeAux (ex.map RawAnn.id) ex inc

/-- A page value coerced to a list, as the `isinstance(..., list)` checks
do (a dict value behaves as the empty list). -/
def pageValList : PageVal → List RawAnn
  | .lst l => l
  | .dct _ => []

/-- One page entry of the per-kind merge of `_save_annotation_type`. -/
def mergeKindStep (acc : PageMap) (kv : String × PageVal) : PageMap :=
  match lookupPage acc kv.1 with
  | some pv =>
      let merged := match kv.2 with
        | .lst l => mergePageLists (pageValList pv) l
        | .dct _ => pageValList pv
      setPage acc kv.1 (.lst merged)
  | none => setPage acc kv.1 kv.2

/-- The per-kind merge of `_save_annotation_type`: pages already present
are merged per id, new pages are copied wholesale.  Iterating a dict page
value yields its keys, none of which is a dict, so merging a dict value
into an existing page leaves it unchanged. -/
def mergeKindData (ex inc : PageMap) : PageMap :=
  inc.foldl mergeKindStep ex

/-- The field list shared by `_clear_page_annotations` and
`_clear_all_annotations`. -/
def clearFields : List AnnField :=
  [.highlights, .drawing_strokes, .marker_strokes, .text_annotations,
   .shape_annotations]

/-- One field of `_clear_page_annotations`. -/
def clearPageStep (pk : String) (acc : UserStore × Nat) (fld : AnnField) :
    UserStore × Nat :=
  match lookupPage (getField acc.1 fld) pk with
  | some pv =>
      (setField acc.1 fld (delPage (getField acc.1 fld) pk),
       acc.2 + (pageValList pv).length)
  | none => acc

/-- `_clear_page_annotations`: drop the page key from every field,
counting removed list entries. -/
def clearPageAnnotations (s : UserStore) (pageNum : Nat) : UserStore × Nat :=
  clearFields.foldl (clearPageStep (toString pageNum)) (s, 0)

/-- Total number of annotations held in list page values of a map. -/
def pageMapCount (m : PageMap) : Nat :=
  (m.map (fun kv => (pageValList kv.2).length)).sum

/-- One field of `_clear_all_annotations`. -/
def clearAllStep (acc : UserStore × Nat) (fld : AnnField) : UserStore × Nat :=
  (setField acc.1 fld [], acc.2 + pageMapCount (getField acc.1 fld))

/-- `_clear_all_annotations`: empty every field, counting removed list
entries. -/
def clearAllAnnotations (s : UserStore) : UserStore × Nat :=
  clearFields.foldl clearAllStep (s, 0)

/-- One submitted annotation of `_handle_clear_action`. -/
def clearActionOne (st2 : UserStore) (a : RawAnn) : UserStore :=
  if a.typ = some "clear_action" then
    let cd := a.payload.getD Payload.empty
    match cd.action with
    | some act =>
        if act = "clear_page" then
          match cd.pageNum with
          | some n => if n ≠ 0 then (clearPageAnnotations st2 n).1 else st2
          | none => st2
        else if act = "clear_all" then (clearAllAnnotations st2).1
        else st2
    | none => st2
  else st2

/-- One page entry of `_handle_clear_action`. -/
def clearActionPage (st : UserStore) (kv : String × PageVal) : UserStore :=
  match kv.2 with
  | .dct _ => st
  | .lst anns => anns.foldl clearActionOne st

/-- `_handle_clear_action`: scan the submitted kind payload for
`clear_action` annotations and run the requested clears. -/
def handleClearAction (s : UserStore) (data : List (String × PageVal)) :
    UserStore :=
  data.foldl clearActionPage s

/-- A submitted deletion record; `none` models an absent key. -/
structure Deletion where
  id : Option String
  typ : Option String
  pageNum : Option Nat
deriving DecidableEq, Repr

def truthyStr : Option String → Bool
  | none => false
  | some s => !s.isEmpty

def truthyNat : Option Nat → Bool
  | none => false
  | some n => n != 0

/-- The `all([annotation_id, annotation_type, page_num])` completeness
check of `_handle_deletions`. -/
def deletionComplete (d : Deletion) : Bool :=
  truthyStr d.id && truthyStr d.typ && truthyNat d.pageNum

/-- One deletion of `_handle_deletions`: filter out matching ids on the
page, dropping the page key when the list becomes empty. -/
def applyDeletion (s : UserStore) (d : Deletion) : UserStore :=
  if deletionComplete d then
    let fld := deletionFieldMapping (d.typ.getD "")
    let current := getField s fld
    let pk := toString (d.pageNum.getD 0)
    match lookupPage current pk with
    | some (.lst anns) =>
        let remaining := anns.filter (fun a => a.id != d.id)
        if remaining.isEmpty then setField s fld (delPage current pk)
        else setField s fld (setPage current pk (.lst remaining))
    | some (.dct _) => s
    | none => s
  else s

def handleDeletions (s : UserStore) (ds : List Deletion) : UserStore :=
  ds.foldl applyDeletion s

/-- The value a save payload maps an annotation kind to: a dict, an int,
or a string. -/
inductive TypeData where
  | dictData : List (String × PageVal) → TypeData
  | intData : Int → TypeData
  | strData : String → TypeData
deriving DecidableEq, Repr

/-- Python falsiness of a kind value. -/
def TypeData.falsy : TypeData → Bool
  | .dictData e => e.isEmpty
  | .intData n => n == 0
  | .strData s => s.isEmpty

/-- `_save_annotation_type`: clear actions are handled first; a falsy
value clears the whole field; a dict value is validated and merged; any
other value is rejected. -/
def saveAnnotationType (uid : String) (now : Nat) (s : UserStore)
    (t : String) (data : TypeData) : UserStore × Bool :=
  if t = "clear_action" then
    match data with
    | .dictData entries => (handleClearAction s entries, true)
    | _ => (s, false)
  else
    let fld := saveFieldMapping t
    if data.falsy then (setField s fld [], true)
    else
      match data with
      | .dictData entries =>
          (setField s fld
            (mergeKindData (getField s fld) (validateAnnotationData uid now entries)),
           true)
      | _ => (s, false)

/-- Python `int(...)` on a kind value, as used for `currentPage` (a
non-numeric value raises and is caught). -/
def typeDataInt : TypeData → Option Int
  | .intData n => some n
  | .strData s => if isDigitStr s then some (digitsToNat s) else none
  | .dictData _ => none

def lookupType : List (String × TypeData) → String → Option TypeData
  | [], _ => none
  | kv :: rest, k => if kv.1 = k then some kv.2 else lookupType rest k

/-- One kind of the upsert loop of `_handle_save_annotations`. -/
def processKindsStep (uid : String) (now : Nat)
    (acc : UserStore × List String) (kv : String × TypeData) :
    UserStore × List String :=
  let r := saveAnnotationType uid now acc.1 kv.1 kv.2
  (r.1, if r.2 then acc.2 ++ [kv.1] else acc.2)

/-- The per-kind upsert loop of `_handle_save_annotations`, collecting the
kinds whose save reported success. -/
def processKinds (uid : String) (now : Nat) (s : UserStore)
    (ad : List (String × TypeData)) : UserStore × List String :=
  ad.foldl (processKindsStep uid now) (s, [])

/-- The `currentPage` update of `_handle_save_annotations`. -/
def updateCurrentPage (s : UserStore) (ad : List (String × TypeData)) :
    UserStore :=
  match lookupType ad "currentPage" with
  | some td =>
      match typeDataInt td with
      | some n => if n ≠ s.current_page then { s with current_page := n } else s
      | none => s
  | none => s

/-- The JSON response of the save handler: an error with a status code and
message, or a success carrying `saved_types`, `deletions_processed` and
`currentPage`. -/
inductive SaveResponse where
  | err : Nat → String → SaveResponse
  | ok : List String → Nat → Int → SaveResponse
deriving DecidableEq, Repr

def SaveResponse.status : SaveResponse → Nat
  | .err c _ => c
  | .ok _ _ _ => 200

/-- The parsed body of a save request, restricted to the keys the handler
reads.  A `none` request models a falsy (absent or empty) body dict. -/
structure SaveData where
  userId : Option String
  ann_data : List (String × TypeData)
  deletions : List Deletion
deriving DecidableEq, Repr

/-- `_handle_save_annotations`. -/
def handleSaveAnnotations (uid : String) (now : Nat) (s : UserStore)
    (data : Option SaveData) : UserStore × SaveResponse :=
  match data with
  | none => (s, .err 400 "No data received")
  | some d =>
      let user_id := d.userId.getD uid
      if user_id ≠ uid then (s, .err 403 "User ID mismatch")
      else
        let s1 := if d.deletions.isEmpty then s else handleDeletions s d.deletions
        if d.ann_data.isEmpty && d.deletions.isEmpty then
          (s1, .err 400 "No annotation data provided")
        else
          let pr := processKinds uid now s1 d.ann_data
          let s3 := updateCurrentPage pr.1 d.ann_data
          (s3, .ok pr.2 d.deletions.length s3.current_page)

/-- The state visible to one XBlock across users: a user-state store per
user, the shared (content-scoped) staff highlights, and the
`allow_annotation` settings flag (named `allow_annot` here). -/
structure GlobalState where
  users : String → UserStore
  staff_highlights : PageMap
  allow_annot : Bool

def updateUser (g : GlobalState) (uid : String) (s : UserStore) : GlobalState :=
  { g with users := fun u => if u = uid then s else g.users u }

/-- The save handler acting on the global state: only the caller's own
user-state store is read and written. -/
def saveOnGlobal (uid : String) (now : Nat) (g : GlobalState)
    (data : Option SaveData) : GlobalState × SaveResponse :=
  let r := handleSaveAnnotations uid now (g.users uid) data
  (updateUser g uid r.1, r.2)

/-- The JSON body of a successful load response. -/
structure LoadResponse where
  highlights : PageMap
  drawing_strokes : PageMap
  marker_strokes : PageMap
  text_annotations : PageMap
  shape_annotations : PageMap
  currentPage : Int
  brightness : Int
  is_grayscale : Bool
  staff_highlights : Option PageMap
  user_id : String
  is_staff : Bool
deriving DecidableEq, Repr

/-- `_handle_load_annotations`: returns the caller's own user-scoped
collections and view settings; the staff highlights are included only for
staff callers.  The handler reads state and writes nothing. -/
def handleLoadAnnotations (uid : String) (isStaff : Bool) (g : GlobalState) :
    LoadResponse :=
  let s := g.users uid
  { highlights := s.highlights,
    drawing_strokes := s.drawing_strokes,
    marker_strokes := s.marker_strokes,
    text_annotations := s.text_annotations,
    shape_annotations := s.shape_annotations,
    currentPage := s.current_page,
    brightness := s.brightness,
    is_grayscale := s.is_grayscale,
    staff_highlights := if isStaff then some g.staff_highlights else none,
    user_id := uid,
    is_staff := isStaff }

/-! ### Lemmas about the per-page merge -/

theorem replaceFirst_map_id (l : List RawAnn) (n : RawAnn) :
    (replaceFirst l n).map RawAnn.id = l.map RawAnn.id := by
  induction l with
  | nil => rfl
  | cons a rest ih =>
      by_cases h : a.id = n.id
      · simp [replaceFirst, h]
      · simp [replaceFirst, h, ih]

theorem map_map_id_of_idpres (ex : List RawAnn) (f : RawAnn → RawAnn)
    (hf : ∀ a, (f a).id = a.id) :
    (ex.map f).map RawAnn.id = ex.map RawAnn.id := by
  rw [List.map_map]
  exact List.map_congr_left (fun a _ => hf a)

theorem replaceFirst_append_left (A C : List RawAnn) (n : RawAnn)
    (h : n.id ∈ A.map RawAnn.id) :
    replaceFirst (A ++ C) n = replaceFirst A n ++ C := by
  induction A with
  | nil => simp at h
  | cons a rest ih =>
      by_cases ha : a.id = n.id
      · simp [replaceFirst, ha]
      · have hmem : n.id ∈ rest.map RawAnn.id := by
          rcases List.mem_map.mp h with ⟨b, hb, hbid⟩
          rcases List.mem_cons.mp hb with hba | hbr
          · exact absurd (hba ▸ hbid) ha
          · exact List.mem_map.mpr ⟨b, hbr, hbid⟩
        simp [replaceFirst, ha, ih hmem]

theorem replaceFirst_map_idpres (ex : List RawAnn) (f : RawAnn → RawAnn)
    (hf : ∀ a, (f a).id = a.id) (n : RawAnn)
    (hnd : (ex.map RawAnn.id).Nodup) :
    replaceFirst (ex.map f) n =
      ex.map (fun a => if a.id = n.id then n else f a) := by
  induction ex with
  | nil => rfl
  | cons a rest ih =>
      simp only [List.map_cons, replaceFirst, hf]
      by_cases ha : a.id = n.id
      · simp only [if_pos ha]
        congr 1
        refine (List.map_congr_left fun x hx => ?_).symm
        have hxne : x.id ≠ n.id := by
          intro hxid
          have : a.id ∈ rest.map RawAnn.id := by
            rw [ha, ← hxid]
            exact List.mem_map.mpr ⟨x, hx, rfl⟩
          exact (List.nodup_cons.mp (by simpa using hnd)).1 this
        simp [hxne]
      · simp only [if_neg ha]
        rw [ih (List.nodup_cons.mp (by simpa using hnd)).2]

theorem contains_eq_decide_mem (l : List (Option String)) (a : Option String) :
    l.contains a = decide (a ∈ l) := by
  simp [List.contains]

theorem mergeAux_spec (inc : List RawAnn) (ex : List RawAnn)
    (f : RawAnn → RawAnn) (hf : ∀ a, (f a).id = a.id) (C : List RawAnn)
    (hnd : (ex.map RawAnn.id).Nodup)
    (hincnd : (inc.map RawAnn.id).Nodup) :
    mergeAux (ex.map RawAnn.id) (ex.map f ++ C) inc =
      ex.map (fun a =>
        match inc.find? (fun n => n.id == a.id) with
        | some n => n
        | none => f a)
      ++ (C ++ inc.filter (fun n => !((ex.map RawAnn.id).contains n.id))) := by
  induction inc generalizing f C with
  | nil => simp [mergeAux]
  | cons n rest ih =>
      have hrestnd : (rest.map RawAnn.id).Nodup :=
        (List.nodup_cons.mp (by simpa using hincnd)).2
      have hnmem : n.id ∉ rest.map RawAnn.id :=
        (List.nodup_cons.mp (by simpa using hincnd)).1
      by_cases hc : n.id ∈ ex.map RawAnn.id
      · have hcontains : (ex.map RawAnn.id).contains n.id = true := by
          rw [contains_eq_decide_mem]; exact decide_eq_true hc
        have hstep : mergeStep (ex.map RawAnn.id) (ex.map f ++ C) n =
            ex.map (fun a => if a.id = n.id then n else f a) ++ C := by
          rw [mergeStep, if_pos hcontains,
              replaceFirst_append_left _ _ _
                (by rw [map_map_id_of_idpres ex f hf]; exact hc),
              replaceFirst_map_idpres ex f hf n hnd]
        have hf' : ∀ a, ((fun a => if a.id = n.id then n else f a) a).id = a.id := by
          intro a
          by_cases ha : a.id = n.id
          · simp [ha]
          · simp [ha, hf]
        have hih := ih (fun a => if a.id = n.id then n else f a) hf' C hrestnd
        calc mergeAux (ex.map RawAnn.id) (ex.map f ++ C) (n :: rest)
            = mergeAux (ex.map RawAnn.id)
                (ex.map (fun a => if a.id = n.id then n else f a) ++ C) rest := by
              rw [mergeAux, List.foldl_cons, ← hstep]; rfl
          _ = _ := by
              rw [hih]
              congr 1
              · refine List.map_congr_left fun a _ => ?_
                by_cases han : a.id = n.id
                · have hfind : rest.find? (fun m => m.id == n.id) = none := by
                    refine List.find?_eq_none.mpr fun m hm => ?_
                    intro hbeq
                    exact hnmem (by
                      rw [← eq_of_beq hbeq]
                      exact List.mem_map.mpr ⟨m, hm, rfl⟩)
                  simp [List.find?, han, hfind]
                · have hne : (n.id == a.id) = false := by
                    simp [Ne.symm han]
                  simp only [List.find?, hne]
                  cases rest.find? (fun m => m.id == a.id) with
                  | none => simp [han]
                  | some m => rfl
              · congr 1
                rcases List.mem_map.mp hc with ⟨a0, ha0, ha0id⟩
                simp only [List.filter_cons, hcontains, Bool.not_true]
                simp
      · have hcontains : (ex.map RawAnn.id).contains n.id = false := by
          rw [contains_eq_decide_mem]; exact decide_eq_false hc
        have hstep : mergeStep (ex.map RawAnn.id) (ex.map f ++ C) n =
            ex.map f ++ (C ++ [n]) := by
          rw [mergeStep, if_neg (by rw [hcontains]; exact Bool.false_ne_true),
              List.append_assoc]
        have hih := ih f hf (C ++ [n]) hrestnd
        calc mergeAux (ex.map RawAnn.id) (ex.map f ++ C) (n :: rest)
            = mergeAux (ex.map RawAnn.id) (ex.map f ++ (C ++ [n])) rest := by
              rw [mergeAux, List.foldl_cons, ← hstep]; rfl
          _ = _ := by
              rw [hih]
              congr 1
              · refine List.map_congr_left fun a ha => ?_
                have haid : a.id ∈ ex.map RawAnn.id := List.mem_map.mpr ⟨a, ha, rfl⟩
                have hne : (n.id == a.id) = false := by
                  refine beq_eq_false_iff_ne.mpr fun hne => ?_
                  exact hc (hne ▸ haid)
                simp only [List.find?, hne]
              · simp only [List.filter_cons, hcontains, Bool.not_false]
                simp [List.append_assoc]

theorem mergePageLists_spec (ex inc : List RawAnn)
    (hnd : (ex.map RawAnn.id).Nodup)
    (hincnd : (inc.map RawAnn.id).Nodup) :
    mergePageLists ex inc =
      ex.map (fun a =>
        match inc.find? (fun n => n.id == a.id) with
        | some n => n
        | none => a)
      ++ inc.filter (fun n => !((ex.map RawAnn.id).contains n.id)) := by
  have := mergeAux_spec inc ex id (fun _ => rfl) [] hnd hincnd
  simpa [mergePageLists] using this

theorem mergePageLists_map_id (ex inc : List RawAnn)
    (hnd : (ex.map RawAnn.id).Nodup)
    (hincnd : (inc.map RawAnn.id).Nodup) :
    (mergePageLists ex inc).map RawAnn.id =
      ex.map RawAnn.id ++
        (inc.filter (fun n => !((ex.map RawAnn.id).contains n.id))).map RawAnn.id := by
  rw [mergePageLists_spec ex inc hnd hincnd, List.map_append]
  congr 1
  rw [List.map_map]
  refine List.map_congr_left fun a ha => ?_
  simp only [Function.comp]
  cases hfind : inc.find? (fun n => n.id == a.id) with
  | none => rfl
  | some n =>
      show n.id = a.id
      have hp := @List.find?_some RawAnn (fun m => m.id == a.id) n inc hfind
      exact eq_of_beq (show (n.id == a.id) = true from hp)

theorem mergePageLists_nodup (ex inc : List RawAnn)
    (hnd : (ex.map RawAnn.id).Nodup)
    (hincnd : (inc.map RawAnn.id).Nodup) :
    ((mergePageLists ex inc).map RawAnn.id).Nodup := by
  rw [mergePageLists_map_id ex inc hnd hincnd, List.nodup_append]
  refine ⟨hnd, ?_, ?_⟩
  · exact List.Nodup.sublist ((List.filter_sublist inc).map RawAnn.id) hincnd
  · intro x hx1 hx2
    rcases List.mem_map.mp hx2 with ⟨n, hn, hnid⟩
    rcases List.mem_filter.mp hn with ⟨_, hkeep⟩
    have : (ex.map RawAnn.id).contains n.id = false := by
      cases hcc : (ex.map RawAnn.id).contains n.id with
      | false => rfl
      | true => rw [hcc] at hkeep; exact absurd hkeep (by simp)
    rw [contains_eq_decide_mem] at this
    exact (of_decide_eq_false this) (hnid ▸ hx1)

/-! ### Basic dict lemmas -/

theorem lookupPage_setPage_self (m : PageMap) (k : String) (v : PageVal) :
    lookupPage (setPage m k v) k = some v := by
  induction m with
  | nil => simp [setPage, lookupPage]
  | cons kv rest ih =>
      by_cases h : kv.1 = k
      · simp [setPage, lookupPage, h]
      · simp [setPage, lookupPage, h, ih]

theorem lookupPage_setPage_ne (m : PageMap) (k k' : String) (v : PageVal)
    (h : k' ≠ k) : lookupPage (setPage m k v) k' = lookupPage m k' := by
  induction m with
  | nil =>
      simp only [setPage, lookupPage]
      rw [if_neg (Ne.symm h)]
  | cons kv rest ih =>
      simp only [setPage]
      by_cases hk : kv.1 = k
      · rw [if_pos hk]
        simp only [lookupPage]
        rw [if_neg (Ne.symm h), if_neg (by rw [hk]; exact Ne.symm h)]
      · rw [if_neg hk]
        simp only [lookupPage]
        by_cases hk' : kv.1 = k'
        · rw [if_pos hk', if_pos hk']
        · rw [if_neg hk', if_neg hk', ih]

theorem lookupPage_delPage_self (m : PageMap) (k : String) :
    lookupPage (delPage m k) k = none := by
  induction m with
  | nil => rfl
  | cons kv rest ih =>
      simp only [delPage, List.filter_cons]
      by_cases h : kv.1 = k
      · rw [if_neg (by simp [h])]
        simpa [delPage] using ih
      · rw [if_pos (by simp [h])]
        simp only [lookupPage]
        rw [if_neg h]
        simpa [delPage] using ih

theorem lookupPage_delPage_ne (m : PageMap) (k k' : String) (h : k' ≠ k) :
    lookupPage (delPage m k) k' = lookupPage m k' := by
  induction m with
  | nil => rfl
  | cons kv rest ih =>
      simp only [delPage, List.filter_cons]
      by_cases hk : kv.1 = k
      · rw [if_neg (by simp [hk])]
        have hne : kv.1 ≠ k' := by rw [hk]; exact Ne.symm h
        conv_rhs => rw [lookupPage]
        rw [if_neg hne]
        simpa [delPage] using ih
      · rw [if_pos (by simp [hk])]
        simp only [lookupPage]
        by_cases hk' : kv.1 = k'
        · rw [if_pos hk', if_pos hk']
        · rw [if_neg hk', if_neg hk']
          simpa [delPage] using ih

theorem getField_setField (s : UserStore) (fld : AnnField) (m : PageMap) :
    getField (setField s fld m) fld = m := by
  cases fld <;> rfl

theorem getField_setField_ne (s : UserStore) (fld fld' : AnnField) (m : PageMap)
    (h : fld' ≠ fld) : getField (setField s fld m) fld' = getField s fld' := by
  cases fld <;> cases fld' <;> first | rfl | exact absurd rfl h

/-! ### Claim C1 -/

/-- C1: for every kind and page, saving an incoming annotation list merges
it into the stored page list as a union keyed by id: existing annotations
whose id is not mentioned in the incoming list are kept in place, incoming
annotations whose id matches an existing one replace that entry at its
position (the matching incoming entry is `find?`-ed by id), and incoming
annotations with a new id are appended at the end in submission order.
In particular the stored page list is never replaced wholesale.  Stated
under the spec's own invariant that ids are unique within a page list
(for both the stored and the incoming list). -/
theorem upsert_union_merge (ex inc : List RawAnn)
    (hnd : (ex.map RawAnn.id).Nodup)
    (hincnd : (inc.map RawAnn.id).Nodup) :
    mergePageLists ex inc =
      ex.map (fun a =>
        match inc.find? (fun n => n.id == a.id) with
        | some n => n
        | none => a)
      ++ inc.filter (fun n => !((ex.map RawAnn.id).contains n.id)) :=
  mergePageLists_spec ex inc hnd hincnd

/-- A concrete annotation for witnesses and counterexamples. -/
def annW (i : String) (g : String) : RawAnn :=
  ⟨some i, some "highlight", some "u1", some 0, some ⟨none, none, g⟩, some ""⟩

/-- Witness for C1, on the spec's own union-merge example: existing page
list with ids 1 and 2, incoming with ids 2 (updated payload) and 3. -/
theorem upsert_union_merge_witness :
    (([annW "1" "A1", annW "2" "A2"].map RawAnn.id).Nodup ∧
      ([annW "2" "B", annW "3" "C"].map RawAnn.id).Nodup) ∧
    mergePageLists [annW "1" "A1", annW "2" "A2"] [annW "2" "B", annW "3" "C"] =
      [annW "1" "A1", annW "2" "B", annW "3" "C"] := by
  refine ⟨⟨by decide, by decide⟩, ?_⟩
  rw [upsert_union_merge _ _ (by decide) (by decide)]
  decide

/-! ### Concrete fixtures -/

/-- An empty user store with the default view settings (page 1,
brightness 100, grayscale off). -/
def storeW : UserStore := ⟨[], [], [], [], [], 1, 100, false⟩

theorem current_page_setField (s : UserStore) (fld : AnnField) (m : PageMap) :
    (setField s fld m).current_page = s.current_page := by
  cases fld <;> rfl

/-! ### Claim C2 -/

/-- C2: a save whose payload embeds a user id different from the caller's
identity fails with HTTP 403 (User ID mismatch) and leaves the caller's
store, every other user's store, the staff highlights and every other
part of the global state unchanged. -/
theorem save_rejects_user_mismatch (uid : String) (now : Nat)
    (g : GlobalState) (d : SaveData) (u : String)
    (hu : d.userId = some u) (hne : u ≠ uid) :
    saveOnGlobal uid now g (some d) =
      (g, SaveResponse.err 403 "User ID mismatch") ∧
    handleSaveAnnotations uid now (g.users uid) (some d) =
      (g.users uid, SaveResponse.err 403 "User ID mismatch") := by
  have hh : handleSaveAnnotations uid now (g.users uid) (some d) =
      (g.users uid, SaveResponse.err 403 "User ID mismatch") := by
    simp [handleSaveAnnotations, hu, hne]
  refine ⟨?_, hh⟩
  have husers : (fun v => if v = uid then g.users uid else g.users v) = g.users := by
    funext v
    by_cases hv : v = uid
    · rw [if_pos hv, hv]
    · rw [if_neg hv]
  simp only [saveOnGlobal, hh, updateUser]
  rw [Prod.mk.injEq]
  refine ⟨?_, rfl⟩
  cases g with
  | mk us sh aa => simpa using husers

/-- Witness for C2: user u1 submits a payload carrying user id u2. -/
theorem save_rejects_user_mismatch_witness :
    saveOnGlobal "u1" 0 ⟨fun _ => storeW, [], true⟩
        (some ⟨some "u2", [("highlights", .dictData [("1", .lst [annW "1" "A"])])], []⟩) =
      (⟨fun _ => storeW, [], true⟩, SaveResponse.err 403 "User ID mismatch") ∧
    handleSaveAnnotations "u1" 0
        ((⟨fun _ => storeW, [], true⟩ : GlobalState).users "u1")
        (some ⟨some "u2", [("highlights", .dictData [("1", .lst [annW "1" "A"])])], []⟩) =
      ((⟨fun _ => storeW, [], true⟩ : GlobalState).users "u1",
       SaveResponse.err 403 "User ID mismatch") :=
  save_rejects_user_mismatch "u1" 0 ⟨fun _ => storeW, [], true⟩
    ⟨some "u2", [("highlights", .dictData [("1", .lst [annW "1" "A"])])], []⟩
    "u2" rfl (by decide)

/-! ### Claim C3 -/

/-- Counterexample to C3 as stated: with the annotation-allowed flag
false, a save request still succeeds (HTTP 200) and mutates the stored
highlights; it is not rejected with a PermissionError. -/
theorem allow_annot_not_checked_counterexample :
    ((saveOnGlobal "u1" 5 ⟨fun _ => storeW, [], false⟩
        (some ⟨none, [("highlights", .dictData [("1", .lst [annW "h1" "G"])])], []⟩)).2).status = 200 ∧
    ((saveOnGlobal "u1" 5 ⟨fun _ => storeW, [], false⟩
        (some ⟨none, [("highlights", .dictData [("1", .lst [annW "h1" "G"])])], []⟩)).1.users "u1").highlights ≠ [] ∧
    (⟨fun _ => storeW, [], false⟩ : GlobalState).allow_annot = false := by
  refine ⟨?_, ?_, rfl⟩ <;> decide

/-- C3 amended: the save handler never consults the annotation-allowed
flag; the response and the per-user store effect of a save are identical
whether the flag is true or false, and the flag itself is left as set. -/
theorem save_ignores_allow_annot (uid : String) (now : Nat) (g : GlobalState)
    (data : Option SaveData) (b : Bool) :
    (saveOnGlobal uid now { g with allow_annot := b } data).2 =
      (saveOnGlobal uid now g data).2 ∧
    (saveOnGlobal uid now { g with allow_annot := b } data).1.users =
      (saveOnGlobal uid now g data).1.users ∧
    (saveOnGlobal uid now { g with allow_annot := b } data).1.allow_annot = b :=
  ⟨rfl, rfl, rfl⟩

/-! ### Claim C9 -/

/-- C9: a save payload mapping an annotation kind to an empty dict
replaces the whole stored collection for that kind with the empty map and
reports that kind as saved: the per-kind save returns the cleared store
with success, and a save request carrying only that kind succeeds with
the kind listed in `saved_types`. -/
theorem falsy_kind_clears_field (uid : String) (now : Nat) (s : UserStore)
    (t : String) (ht : t ≠ "clear_action") :
    saveAnnotationType uid now s t (.dictData []) =
      (setField s (saveFieldMapping t) [], true) ∧
    handleSaveAnnotations uid now s (some ⟨none, [(t, .dictData [])], []⟩) =
      (setField s (saveFieldMapping t) [],
       SaveResponse.ok [t] 0 s.current_page) := by
  have h1 : saveAnnotationType uid now s t (.dictData []) =
      (setField s (saveFieldMapping t) [], true) := by
    simp [saveAnnotationType, ht, TypeData.falsy]
  refine ⟨h1, ?_⟩
  by_cases hcp : t = "currentPage"
  · subst hcp
    simp [handleSaveAnnotations, processKinds, processKindsStep, h1,
      updateCurrentPage, lookupType, typeDataInt, current_page_setField]
  · simp [handleSaveAnnotations, processKinds, processKindsStep, h1,
      updateCurrentPage, lookupType, hcp, current_page_setField]

/-- Witness for C9: clearing the highlights kind with an empty dict on a
store holding one highlight. -/
theorem falsy_kind_clears_field_witness :
    saveAnnotationType "u1" 0 { storeW with highlights := [("2", .lst [annW "x" "G"])] }
        "highlights" (.dictData []) =
      (setField { storeW with highlights := [("2", .lst [annW "x" "G"])] }
        (saveFieldMapping "highlights") [], true) ∧
    handleSaveAnnotations "u1" 0 { storeW with highlights := [("2", .lst [annW "x" "G"])] }
        (some ⟨none, [("highlights", .dictData [])], []⟩) =
      (setField { storeW with highlights := [("2", .lst [annW "x" "G"])] }
        (saveFieldMapping "highlights") [],
       SaveResponse.ok ["highlights"] 0
         ({ storeW with highlights := [("2", .lst [annW "x" "G"])] } : UserStore).current_page) :=
  falsy_kind_clears_field "u1" 0
    { storeW with highlights := [("2", .lst [annW "x" "G"])] } "highlights" (by decide)

/-! ### Claim C6 -/

/-- Counterexample to C6 as stated: a save whose payload has no kind
payloads and no deletions does NOT succeed: it returns a 400 error.  And
a save whose only deletion is incomplete (so nothing is applied) reports
`deletions_processed = 1`, the count of submitted, not applied,
deletions. -/
theorem empty_save_counterexample :
    handleSaveAnnotations "u1" 0 storeW (some ⟨none, [], []⟩) =
      (storeW, SaveResponse.err 400 "No annotation data provided") ∧
    handleSaveAnnotations "u1" 0 storeW
        (some ⟨none, [], [⟨some "x", some "highlight", none⟩]⟩) =
      (storeW, SaveResponse.ok [] 1 1) := by
  exact ⟨rfl, rfl⟩

/-- C6 amended: a save whose payload carries no kind payloads succeeds
with an empty `saved_types` list provided at least one deletion was
submitted, reporting the number of submitted deletions; with neither
kind payloads nor deletions it instead fails with a 400 error. -/
theorem save_empty_payload_behavior (uid : String) (now : Nat)
    (s : UserStore) (ds : List Deletion) (hds : ds ≠ []) :
    handleSaveAnnotations uid now s (some ⟨none, [], ds⟩) =
      (handleDeletions s ds,
       SaveResponse.ok [] ds.length (handleDeletions s ds).current_page) ∧
    handleSaveAnnotations uid now s (some ⟨none, [], []⟩) =
      (s, SaveResponse.err 400 "No annotation data provided") := by
  constructor
  · simp only [handleSaveAnnotations, Option.getD]
    rw [if_neg (by simp)]
    have hne : ds.isEmpty = false := by
      cases ds with
      | nil => exact absurd rfl hds
      | cons a l => rfl
    simp [hne, processKinds, updateCurrentPage, lookupType]
  · simp [handleSaveAnnotations]

/-- Witness for C6: a deletion-only save with one complete deletion. -/
theorem save_empty_payload_behavior_witness :
    handleSaveAnnotations "u1" 0 storeW
        (some ⟨none, [], [⟨some "a", some "highlights", some 1⟩]⟩) =
      (handleDeletions storeW [⟨some "a", some "highlights", some 1⟩],
       SaveResponse.ok [] ([⟨some "a", some "highlights", some 1⟩] : List Deletion).length
         (handleDeletions storeW [⟨some "a", some "highlights", some 1⟩]).current_page) ∧
    handleSaveAnnotations "u1" 0 storeW (some ⟨none, [], []⟩) =
      (storeW, SaveResponse.err 400 "No annotation data provided") :=
  save_empty_payload_behavior "u1" 0 storeW [⟨some "a", some "highlights", some 1⟩]
    (by decide)

/-! ### Claim C4 -/

theorem applyDeletion_lookup (s : UserStore) (d : Deletion)
    (hc : deletionComplete d = true) :
    lookupPage (getField (applyDeletion s d) (deletionFieldMapping (d.typ.getD "")))
        (toString (d.pageNum.getD 0)) =
      (match lookupPage (getField s (deletionFieldMapping (d.typ.getD "")))
          (toString (d.pageNum.getD 0)) with
       | some (.lst anns) =>
           if (anns.filter (fun a => a.id != d.id)).isEmpty then none
           else some (.lst (anns.filter (fun a => a.id != d.id)))
       | some (.dct x) => some (.dct x)
       | none => none) := by
  cases hl : lookupPage (getField s (deletionFieldMapping (d.typ.getD "")))
      (toString (d.pageNum.getD 0)) with
  | none => simp [applyDeletion, hc, hl]
  | some pv =>
      cases pv with
      | dct x => simp [applyDeletion, hc, hl]
      | lst anns =>
          by_cases he : (anns.filter (fun a => a.id != d.id)).isEmpty
          · simp [applyDeletion, hc, hl, he, getField_setField,
              lookupPage_delPage_self]
          · simp [applyDeletion, hc, hl, he, getField_setField,
              lookupPage_setPage_self]

/-- C4: in a save request, deletion processing happens before upsert
processing (the resulting store is the upsert phase applied to the
deletions-applied store); each complete deletion removes every annotation
with a matching id from its kind's page list, and if the page list
becomes empty the page key itself is removed, so the deleted page never
maps to an empty list afterwards. -/
theorem deletions_first_and_remove_matching
    (uid : String) (now : Nat) (s s' : UserStore) (d : SaveData)
    (del : Deletion) (hu : d.userId = none)
    (hne : (d.ann_data.isEmpty && d.deletions.isEmpty) = false)
    (hc : deletionComplete del = true) :
    (handleSaveAnnotations uid now s (some d)).1 =
      updateCurrentPage
        (processKinds uid now (handleDeletions s d.deletions) d.ann_data).1
        d.ann_data ∧
    lookupPage (getField (applyDeletion s' del) (deletionFieldMapping (del.typ.getD "")))
        (toString (del.pageNum.getD 0)) =
      (match lookupPage (getField s' (deletionFieldMapping (del.typ.getD "")))
          (toString (del.pageNum.getD 0)) with
       | some (.lst anns) =>
           if (anns.filter (fun a => a.id != del.id)).isEmpty then none
           else some (.lst (anns.filter (fun a => a.id != del.id)))
       | some (.dct x) => some (.dct x)
       | none => none) ∧
    lookupPage (getField (applyDeletion s' del) (deletionFieldMapping (del.typ.getD "")))
        (toString (del.pageNum.getD 0)) ≠ some (.lst []) := by
  have h2 := applyDeletion_lookup s' del hc
  have hdel : (if d.deletions.isEmpty then s else handleDeletions s d.deletions) =
      handleDeletions s d.deletions := by
    cases d.deletions with
    | nil => simp [handleDeletions]
    | cons a l => simp
  refine ⟨?_, h2, ?_⟩
  · simp only [handleSaveAnnotations, hu, Option.getD]
    rw [if_neg (by simp), hdel, if_neg (by simp [hne])]
  · rw [h2]
    cases hl : lookupPage (getField s' (deletionFieldMapping (del.typ.getD "")))
        (toString (del.pageNum.getD 0)) with
    | none => simp
    | some pv =>
        cases pv with
        | dct x => simp
        | lst anns =>
            by_cases he : (anns.filter (fun a => a.id != del.id)).isEmpty
            · simp [he]
            · show (if (anns.filter (fun a => a.id != del.id)).isEmpty = true then none
                    else some (PageVal.lst (anns.filter (fun a => a.id != del.id)))) ≠
                  some (PageVal.lst [])
              rw [if_neg he]
              intro hcontra
              have hln : (anns.filter (fun a => a.id != del.id)) = [] :=
                PageVal.lst.inj (Option.some.inj hcontra)
              rw [hln] at he
              exact he rfl

/-- Deletion fixture: a store with one highlight with id a on page 1, and
a complete deletion naming it. -/
def sDel : UserStore := { storeW with highlights := [("1", .lst [annW "a" "A"])] }

def delW : Deletion := ⟨some "a", some "highlights", some 1⟩

/-- Witness for C4: deleting the only highlight on page 1. -/
theorem deletions_first_and_remove_matching_witness :
    (handleSaveAnnotations "u1" 0 sDel (some ⟨none, [], [delW]⟩)).1 =
      updateCurrentPage
        (processKinds "u1" 0 (handleDeletions sDel [delW]) []).1 [] ∧
    lookupPage (getField (applyDeletion sDel delW) (deletionFieldMapping (delW.typ.getD "")))
        (toString (delW.pageNum.getD 0)) =
      (match lookupPage (getField sDel (deletionFieldMapping (delW.typ.getD "")))
          (toString (delW.pageNum.getD 0)) with
       | some (.lst anns) =>
           if (anns.filter (fun a => a.id != delW.id)).isEmpty then none
           else some (.lst (anns.filter (fun a => a.id != delW.id)))
       | some (.dct x) => some (.dct x)
       | none => none) ∧
    lookupPage (getField (applyDeletion sDel delW) (deletionFieldMapping (delW.typ.getD "")))
        (toString (delW.pageNum.getD 0)) ≠ some (.lst []) :=
  deletions_first_and_remove_matching "u1" 0 sDel sDel ⟨none, [], [delW]⟩ delW
    rfl (by decide) (by decide)

/-! ### Claim C7 -/

/-- Load fixture: student u1 owns one private highlight on page 1, and the
document has one staff-broadcast highlight on page 1. -/
def gC7 : GlobalState :=
  ⟨fun u => if u = "u1" then { storeW with highlights := [("1", .lst [annW "p1" "P"])] }
            else storeW,
   [("1", .lst [annW "s1" "H"])], true⟩

/-- Counterexample to C7 as stated: the load handler does not merge the
staff-broadcast highlights into a student's result.  Student u1's load
returns only the private highlight on page 1 and no staff_highlights key,
although a staff-broadcast highlight for page 1 exists; the claimed
merged page list is not what is returned. -/
theorem student_load_no_staff_merge_counterexample :
    (handleLoadAnnotations "u1" false gC7).highlights = [("1", .lst [annW "p1" "P"])] ∧
    (handleLoadAnnotations "u1" false gC7).staff_highlights = none ∧
    gC7.staff_highlights = [("1", .lst [annW "s1" "H"])] ∧
    (handleLoadAnnotations "u1" false gC7).highlights ≠
      [("1", .lst [annW "p1" "P", annW "s1" "H"])] := by
  refine ⟨by decide, by decide, by decide, by decide⟩

/-- C7 amended: a student's load returns exactly that user's own private
collections; the staff-broadcast highlights are not merged in and the
staff_highlights key is absent for non-staff callers; and the result is
independent of every other user's private store (no cross-user
leakage). -/
theorem student_load_own_only (uid : String) (g : GlobalState) :
    (handleLoadAnnotations uid false g).highlights = (g.users uid).highlights ∧
    (handleLoadAnnotations uid false g).drawing_strokes = (g.users uid).drawing_strokes ∧
    (handleLoadAnnotations uid false g).marker_strokes = (g.users uid).marker_strokes ∧
    (handleLoadAnnotations uid false g).text_annotations = (g.users uid).text_annotations ∧
    (handleLoadAnnotations uid false g).shape_annotations = (g.users uid).shape_annotations ∧
    (handleLoadAnnotations uid false g).staff_highlights = none ∧
    ∀ (v : String) (s' : UserStore), v ≠ uid →
      handleLoadAnnotations uid false (updateUser g v s') =
        handleLoadAnnotations uid false g := by
  refine ⟨rfl, rfl, rfl, rfl, rfl, rfl, ?_⟩
  intro v s' hv
  simp [handleLoadAnnotations, updateUser, Ne.symm hv]

/-- Witness for C7: changing another student's store does not change
student u1's load result. -/
theorem student_load_own_only_witness :
    handleLoadAnnotations "u1" false (updateUser gC7 "u2" sDel) =
      handleLoadAnnotations "u1" false gC7 :=
  (student_load_own_only "u1" gC7).2.2.2.2.2.2 "u2" sDel (by decide)

/-! ### Claim C8 -/

/-- A submitted clear_action annotation requesting clear_all. -/
def clearAllAnn : RawAnn :=
  ⟨some "c1", some "clear_action", none, none, some ⟨some "clear_all", none, ""⟩, none⟩

/-- A store with annotations of every kind on several pages. -/
def sFull : UserStore :=
  ⟨[("1", .lst [annW "a" "A"])], [("2", .lst [annW "b" "B"])],
   [("1", .lst [annW "c" "C"])], [("3", .lst [annW "d" "D"])],
   [("1", .lst [annW "e" "E"])], 1, 100, false⟩

def dClear : SaveData :=
  ⟨none, [("clear_action", .dictData [("1", .lst [clearAllAnn])])], []⟩

/-- Counterexample to C8 as stated: a save request whose payload contains
a clear_action kind removes every annotation kind's entries for the whole
document — clear-all runs as part of an ordinary save call, with a 200
response reporting the clear_action kind as saved. -/
theorem clear_through_save_counterexample :
    sFull.highlights ≠ [] ∧
    (handleSaveAnnotations "u1" 0 sFull (some dClear)).1.highlights = [] ∧
    (handleSaveAnnotations "u1" 0 sFull (some dClear)).1.drawing_strokes = [] ∧
    (handleSaveAnnotations "u1" 0 sFull (some dClear)).1.marker_strokes = [] ∧
    (handleSaveAnnotations "u1" 0 sFull (some dClear)).1.text_annotations = [] ∧
    (handleSaveAnnotations "u1" 0 sFull (some dClear)).1.shape_annotations = [] ∧
    (handleSaveAnnotations "u1" 0 sFull (some dClear)).2 =
      SaveResponse.ok ["clear_action"] 0 1 := by
  refine ⟨by decide, by decide, by decide, by decide, by decide, by decide, by decide⟩

/-- C8 amended: clear-all is triggered through the save pipeline itself:
a save whose payload maps the clear_action kind to a clear_all request
empties every annotation kind of the caller's store; the internal helper
returns the count removed, but the save response reports only the
clear_action kind and does not carry that count. -/
theorem clear_via_save_pipeline (uid : String) (now : Nat) (s : UserStore)
    (k : String) :
    saveAnnotationType uid now s "clear_action" (.dictData [(k, .lst [clearAllAnn])]) =
      ((clearAllAnnotations s).1, true) ∧
    (clearAllAnnotations s).1 =
      { s with highlights := [], drawing_strokes := [], marker_strokes := [],
               text_annotations := [], shape_annotations := [] } ∧
    (clearAllAnnotations s).2 =
      pageMapCount s.highlights + pageMapCount s.drawing_strokes +
        pageMapCount s.marker_strokes + pageMapCount s.text_annotations +
        pageMapCount s.shape_annotations ∧
    handleSaveAnnotations uid now s (some ⟨none, [("clear_action", .dictData [(k, .lst [clearAllAnn])])], []⟩) =
      ((clearAllAnnotations s).1, SaveResponse.ok ["clear_action"] 0 s.current_page) := by
  have h0 : clearAllAnnotations s =
      ({ s with highlights := [], drawing_strokes := [], marker_strokes := [],
                text_annotations := [], shape_annotations := [] },
       pageMapCount s.highlights + pageMapCount s.drawing_strokes +
         pageMapCount s.marker_strokes + pageMapCount s.text_annotations +
         pageMapCount s.shape_annotations) := by
    simp [clearAllAnnotations, clearAllStep, clearFields, getField, setField]
  have h1 : saveAnnotationType uid now s "clear_action"
      (.dictData [(k, .lst [clearAllAnn])]) = ((clearAllAnnotations s).1, true) := by
    simp [saveAnnotationType, handleClearAction, clearActionPage, clearActionOne,
      clearAllAnn]
  refine ⟨h1, by rw [h0], by rw [h0], ?_⟩
  simp [handleSaveAnnotations, processKinds, processKindsStep, h1,
    updateCurrentPage, lookupType, h0]

/-! ### Claim C5 -/

theorem mem_merge_singleton_id (exl : List RawAnn) (c : RawAnn)
    (hnd : (exl.map RawAnn.id).Nodup) :
    c.id ∈ (mergePageLists exl [c]).map RawAnn.id := by
  rw [mergePageLists_map_id exl [c] hnd (by simp)]
  by_cases hm : c.id ∈ exl.map RawAnn.id
  · exact List.mem_append_left _ hm
  · have hcontains : (exl.map RawAnn.id).contains c.id = false := by
      rw [contains_eq_decide_mem]; exact decide_eq_false hm
    have hkeep : [c].filter (fun n => !((exl.map RawAnn.id).contains n.id)) = [c] := by
      simp only [List.filter_cons, hcontains, Bool.not_false]
      simp
    rw [hkeep]
    exact List.mem_append_right _ (by simp)

theorem countP_eq_one_of_nodup_mem (l : List (Option String)) (v : Option String)
    (hnd : l.Nodup) (hm : v ∈ l) : l.countP (fun i => i == v) = 1 := by
  induction l with
  | nil => cases hm
  | cons x xs ih =>
      rw [List.countP_cons]
      rcases List.mem_cons.mp hm with h | h
      · subst h
        have hx : xs.countP (fun i => i == v) = 0 := by
          refine List.countP_eq_zero.mpr fun a ha => ?_
          have hvx : v ∉ xs := (List.nodup_cons.mp hnd).1
          simp only [beq_iff_eq]
          intro heq
          exact hvx (heq ▸ ha)
        simp [hx]
      · have hv : (x == v) = false := by
          refine beq_eq_false_iff_ne.mpr fun he => ?_
          exact (List.nodup_cons.mp hnd).1 (he ▸ h)
        rw [ih (List.nodup_cons.mp hnd).2 h, hv]
        simp

theorem merge_singleton_known (L : List RawAnn) (c : RawAnn)
    (hnd : (L.map RawAnn.id).Nodup) (hmem : c.id ∈ L.map RawAnn.id) :
    mergePageLists L [c] = L.map (fun a => if a.id = c.id then c else a) ∧
    (mergePageLists L [c]).countP (fun a => a.id == c.id) = 1 ∧
    ∀ a ∈ mergePageLists L [c], a.id = c.id → a = c := by
  have hcontains : (L.map RawAnn.id).contains c.id = true := by
    rw [contains_eq_decide_mem]; exact decide_eq_true hmem
  have hspec := mergePageLists_spec L [c] hnd (by simp)
  have hfilter : [c].filter (fun n => !((L.map RawAnn.id).contains n.id)) = [] := by
    simp only [List.filter_cons, hcontains, Bool.not_true]
    simp
  have hmapeq : (L.map (fun a =>
      match [c].find? (fun n => n.id == a.id) with
      | some n => n
      | none => a)) = L.map (fun a => if a.id = c.id then c else a) := by
    refine List.map_congr_left fun a _ => ?_
    by_cases hac : a.id = c.id
    · simp [List.find?, hac]
    · have hne : (c.id == a.id) = false := by
        refine beq_eq_false_iff_ne.mpr fun h => hac h.symm
      simp [List.find?, hne, hac]
  have hmain : mergePageLists L [c] = L.map (fun a => if a.id = c.id then c else a) := by
    rw [hspec, hfilter, List.append_nil, hmapeq]
  refine ⟨hmain, ?_, ?_⟩
  · rw [hmain, List.countP_map]
    have hc1 : List.countP ((fun a => a.id == c.id) ∘ (fun a => if a.id = c.id then c else a)) L
        = List.countP (fun a => a.id == c.id) L := by
      refine List.countP_congr fun x _ => ?_
      by_cases hx : x.id = c.id
      · simp [Function.comp, hx]
      · simp [Function.comp, hx]
    have hc2 : List.countP (fun a => a.id == c.id) L =
        List.countP (fun i => i == c.id) (L.map RawAnn.id) := by
      rw [List.countP_map]
      rfl
    rw [hc1, hc2]
    exact countP_eq_one_of_nodup_mem _ _ hnd hmem
  · intro a ha haid
    rw [hmain] at ha
    rcases List.mem_map.mp ha with ⟨b, hb, hba⟩
    by_cases hbid : b.id = c.id
    · rw [← hba]; simp [hbid]
    · exfalso
      apply hbid
      rw [← haid, ← hba]
      simp [hbid]

theorem saveAnnotationType_single (uid : String) (now : Nat) (s : UserStore)
    (t pk : String) (a : RawAnn) (ht : t ≠ "clear_action") :
    (saveAnnotationType uid now s t (.dictData [(pk, .lst [a])])).1 =
      setField s (saveFieldMapping t)
        (setPage (getField s (saveFieldMapping t)) (normPageKey pk)
          (.lst (match lookupPage (getField s (saveFieldMapping t)) (normPageKey pk) with
                 | some pv => mergePageLists (pageValList pv) [cleanAnn uid now 0 a]
                 | none => [cleanAnn uid now 0 a]))) := by
  have hclean : cleanPageList uid now [a] = [cleanAnn uid now 0 a] := rfl
  have hval : validateAnnotationData uid now [(pk, .lst [a])] =
      [(normPageKey pk, .lst [cleanAnn uid now 0 a])] := by
    simp [validateAnnotationData, validateStep, hclean, setPage]
  cases hl : lookupPage (getField s (saveFieldMapping t)) (normPageKey pk) with
  | none => simp [saveAnnotationType, ht, TypeData.falsy, hval, mergeKindData,
      mergeKindStep, hl]
  | some pv => simp [saveAnnotationType, ht, TypeData.falsy, hval, mergeKindData,
      mergeKindStep, hl]

/-- Store fixture with nodup ids on highlights page 1, and a duplicated
incoming id. -/
def sdup : UserStore := { storeW with highlights := [("1", .lst [annW "a" "P"])] }

/-- Counterexample to C5 as stated: a single save whose incoming page
list carries the same id twice appends both copies, so the stored
invariant that ids are unique within a page list is NOT preserved by
every save. -/
theorem duplicate_incoming_ids_counterexample :
    (([annW "a" "P"].map RawAnn.id).Nodup) ∧
    ¬ (((pageValList
          ((lookupPage ((saveAnnotationType "u1" 7 sdup "highlights"
              (.dictData [("1", .lst [annW "9" "X1", annW "9" "X2"])])).1.highlights)
            "1").getD (.lst []))).map RawAnn.id).Nodup) := by
  refine ⟨by decide, by decide⟩

/-- C5 amended: saving the same annotation id X twice (two successive
single-annotation saves of the same kind and page) leaves exactly one
entry with id X in the stored page list, whose content is the cleaned
second submission; and id-uniqueness within a page is preserved by the
per-page merge provided the incoming page list itself has no duplicate
ids (a single save with duplicated incoming ids can violate it). -/
theorem upsert_idempotent_and_unique
    (uid : String) (n1 n2 : Nat) (s s1 s2 : UserStore) (t pk : String)
    (a b : RawAnn) (X : String) (L : List RawAnn)
    (ht : t ≠ "clear_action") (ha : a.id = some X) (hb : b.id = some X)
    (hpage : ∀ l, lookupPage (getField s (saveFieldMapping t)) (normPageKey pk) =
        some (.lst l) → (l.map RawAnn.id).Nodup)
    (hs1 : s1 = (saveAnnotationType uid n1 s t (.dictData [(pk, .lst [a])])).1)
    (hs2 : s2 = (saveAnnotationType uid n2 s1 t (.dictData [(pk, .lst [b])])).1)
    (hL : lookupPage (getField s2 (saveFieldMapping t)) (normPageKey pk) =
        some (.lst L)) :
    (L.countP (fun c => c.id == some X) = 1 ∧
     ∀ c ∈ L, c.id = some X → c = cleanAnn uid n2 0 b) ∧
    ∀ ex inc : List RawAnn, (ex.map RawAnn.id).Nodup →
      (inc.map RawAnn.id).Nodup →
      ((mergePageLists ex inc).map RawAnn.id).Nodup := by
  have c1id : (cleanAnn uid n1 0 a).id = some X := by simp [cleanAnn, ha]
  have c2id : (cleanAnn uid n2 0 b).id = some X := by simp [cleanAnn, hb]
  have hg1 : getField s1 (saveFieldMapping t) =
      setPage (getField s (saveFieldMapping t)) (normPageKey pk)
        (.lst (match lookupPage (getField s (saveFieldMapping t)) (normPageKey pk) with
               | some pv => mergePageLists (pageValList pv) [cleanAnn uid n1 0 a]
               | none => [cleanAnn uid n1 0 a])) := by
    rw [hs1, saveAnnotationType_single uid n1 s t pk a ht, getField_setField]
  obtain ⟨L1, hg1', hL1nd, hL1mem⟩ :
      ∃ L1, getField s1 (saveFieldMapping t) =
          setPage (getField s (saveFieldMapping t)) (normPageKey pk) (.lst L1) ∧
        (L1.map RawAnn.id).Nodup ∧ some X ∈ L1.map RawAnn.id := by
    cases hl : lookupPage (getField s (saveFieldMapping t)) (normPageKey pk) with
    | none =>
        refine ⟨[cleanAnn uid n1 0 a], ?_, by simp, by simp [c1id]⟩
        rw [hg1, hl]
    | some pv =>
        cases pv with
        | lst l =>
            have hlnd := hpage l hl
            refine ⟨mergePageLists l [cleanAnn uid n1 0 a], ?_, ?_, ?_⟩
            · rw [hg1, hl]
              rfl
            · exact mergePageLists_nodup l _ hlnd (by simp)
            · rw [← c1id]; exact mem_merge_singleton_id l _ hlnd
        | dct x =>
            refine ⟨mergePageLists [] [cleanAnn uid n1 0 a], ?_, ?_, ?_⟩
            · rw [hg1, hl]
              rfl
            · have hred : mergePageLists [] [cleanAnn uid n1 0 a] =
                  [cleanAnn uid n1 0 a] := rfl
              rw [hred]; simp
            · have hred : mergePageLists [] [cleanAnn uid n1 0 a] =
                  [cleanAnn uid n1 0 a] := rfl
              rw [hred]; simp [c1id]
  have hg2 : getField s2 (saveFieldMapping t) =
      setPage (getField s1 (saveFieldMapping t)) (normPageKey pk)
        (.lst (mergePageLists L1 [cleanAnn uid n2 0 b])) := by
    rw [hs2, saveAnnotationType_single uid n2 s1 t pk b ht, getField_setField, hg1',
        lookupPage_setPage_self]
    rfl
  have hLeq : L = mergePageLists L1 [cleanAnn uid n2 0 b] := by
    rw [hg2, lookupPage_setPage_self] at hL
    exact (PageVal.lst.inj (Option.some.inj hL)).symm
  subst hLeq
  have hmem2 : (cleanAnn uid n2 0 b).id ∈ L1.map RawAnn.id := by
    rw [c2id]; exact hL1mem
  obtain ⟨-, hcount, hrepl⟩ := merge_singleton_known L1 (cleanAnn uid n2 0 b) hL1nd hmem2
  refine ⟨⟨?_, ?_⟩, fun ex inc hx hi => mergePageLists_nodup ex inc hx hi⟩
  · rw [c2id] at hcount
    exact hcount
  · intro c hc hcid
    exact hrepl c hc (by rw [c2id]; exact hcid)

/-- Annotation fixtures for the C5 witness: same id X, different
payloads, and a junk submitted userId that cleaning overrides. -/
def aX : RawAnn := ⟨some "X", some "highlight", some "uZ", some 1, some ⟨none, none, "A"⟩, some ""⟩

def bX : RawAnn := ⟨some "X", some "highlight", some "uZ", some 1, some ⟨none, none, "B"⟩, some ""⟩

/-- Witness for C5: two successive saves of id X into an empty store. -/
theorem upsert_idempotent_and_unique_witness :
    (([cleanAnn "u1" 20 0 bX].countP (fun c => c.id == some "X") = 1 ∧
      ∀ c ∈ [cleanAnn "u1" 20 0 bX], c.id = some "X" → c = cleanAnn "u1" 20 0 bX) ∧
     ∀ ex inc : List RawAnn, (ex.map RawAnn.id).Nodup →
       (inc.map RawAnn.id).Nodup →
       ((mergePageLists ex inc).map RawAnn.id).Nodup) :=
  upsert_idempotent_and_unique "u1" 10 20 storeW
    (saveAnnotationType "u1" 10 storeW "highlights" (.dictData [("1", .lst [aX])])).1
    (saveAnnotationType "u1" 20
      (saveAnnotationType "u1" 10 storeW "highlights" (.dictData [("1", .lst [aX])])).1
      "highlights" (.dictData [("1", .lst [bX])])).1
    "highlights" "1" aX bX "X" [cleanAnn "u1" 20 0 bX]
    (by decide) rfl rfl
    (by intro l h; exact Option.noConfusion h)
    rfl rfl (by decide)

/-! ### Claim C10: cleanliness invariant of stored annotations -/

/-- A stored annotation is clean when it carries the caller's user id and
a present id. -/
def AnnOk (uid : String) (a : RawAnn) : Prop :=
  a.userId = some uid ∧ a.id.isSome = true

def ValOk (uid : String) : PageVal → Prop
  | .lst l => ∀ a ∈ l, AnnOk uid a
  | .dct _ => True

def MapOk (uid : String) (m : PageMap) : Prop :=
  ∀ kv ∈ m, ValOk uid kv.2

def StoreOk (uid : String) (s : UserStore) : Prop :=
  ∀ fld, MapOk uid (getField s fld)

theorem foldl_preserve {α σ : Type _} (P : σ → Prop) (f : σ → α → σ) :
    ∀ (l : List α), (∀ st x, x ∈ l → P st → P (f st x)) →
      ∀ st, P st → P (l.foldl f st)
  | [], _, _, hst => hst
  | x :: xs, h, st, hst =>
      foldl_preserve P f xs (fun st' y hy => h st' y (List.mem_cons_of_mem x hy))
        (f st x) (h st x (List.mem_cons_self x xs) hst)

theorem mem_setPage {m : PageMap} {k : String} {v : PageVal}
    {kv : String × PageVal} (h : kv ∈ setPage m k v) : kv = (k, v) ∨ kv ∈ m := by
  induction m with
  | nil => simpa [setPage] using h
  | cons kv0 rest ih =>
      simp only [setPage] at h
      by_cases hk : kv0.1 = k
      · rw [if_pos hk] at h
        rcases List.mem_cons.mp h with h1 | h1
        · exact Or.inl h1
        · exact Or.inr (List.mem_cons_of_mem _ h1)
      · rw [if_neg hk] at h
        rcases List.mem_cons.mp h with h1 | h1
        · exact Or.inr (List.mem_cons.mpr (Or.inl h1))
        · rcases ih h1 with h2 | h2
          · exact Or.inl h2
          · exact Or.inr (List.mem_cons_of_mem _ h2)

theorem mem_delPage {m : PageMap} {k : String} {kv : String × PageVal}
    (h : kv ∈ delPage m k) : kv ∈ m :=
  List.mem_of_mem_filter h

theorem lookupPage_mem {m : PageMap} {k : String} {v : PageVal}
    (h : lookupPage m k = some v) : (k, v) ∈ m := by
  induction m with
  | nil => cases h
  | cons kv rest ih =>
      simp only [lookupPage] at h
      by_cases hk : kv.1 = k
      · rw [if_pos hk] at h
        have hv := Option.some.inj h
        have hkv : (k, v) = kv := by
          rw [← hk, ← hv]
        exact List.mem_cons.mpr (Or.inl hkv)
      · rw [if_neg hk] at h
        exact List.mem_cons_of_mem _ (ih h)

theorem mem_replaceFirst {l : List RawAnn} {n x : RawAnn}
    (h : x ∈ replaceFirst l n) : x ∈ l ∨ x = n := by
  induction l with
  | nil => simp [replaceFirst] at h
  | cons a rest ih =>
      simp only [replaceFirst] at h
      by_cases ha : a.id = n.id
      · rw [if_pos ha] at h
        rcases List.mem_cons.mp h with h1 | h1
        · exact Or.inr h1
        · exact Or.inl (List.mem_cons_of_mem _ h1)
      · rw [if_neg ha] at h
        rcases List.mem_cons.mp h with h1 | h1
        · exact Or.inl (List.mem_cons.mpr (Or.inl h1))
        · rcases ih h1 with h2 | h2
          · exact Or.inl (List.mem_cons_of_mem _ h2)
          · exact Or.inr h2

theorem mem_mergeAux {ids : List (Option String)} :
    ∀ (inc acc : List RawAnn) (x : RawAnn),
      x ∈ mergeAux ids acc inc → x ∈ acc ∨ x ∈ inc
  | [], _, _, h => Or.inl h
  | n :: rest, acc, x, h => by
      have h' : x ∈ mergeAux ids (mergeStep ids acc n) rest := h
      rcases mem_mergeAux rest (mergeStep ids acc n) x h' with h1 | h1
      · simp only [mergeStep] at h1
        by_cases hc : ids.contains n.id = true
        · rw [if_pos hc] at h1
          rcases mem_replaceFirst h1 with h2 | h2
          · exact Or.inl h2
          · exact Or.inr (List.mem_cons.mpr (Or.inl h2))
        · rw [if_neg hc] at h1
          rcases List.mem_append.mp h1 with h2 | h2
          · exact Or.inl h2
          · have hx : x = n := by simpa using h2
            exact Or.inr (List.mem_cons.mpr (Or.inl hx))
      · exact Or.inr (List.mem_cons_of_mem n h1)

theorem mem_mergePageLists {ex inc : List RawAnn} {x : RawAnn}
    (h : x ∈ mergePageLists ex inc) : x ∈ ex ∨ x ∈ inc :=
  mem_mergeAux inc ex x h

theorem pageValList_ok {uid : String} {pv : PageVal} (h : ValOk uid pv) :
    ∀ a ∈ pageValList pv, AnnOk uid a := by
  cases pv with
  | lst l => exact h
  | dct x =>
      intro a ha
      exact absurd ha (List.not_mem_nil a)

theorem merge_valOk {uid : String} {l1 l2 : List RawAnn}
    (h1 : ∀ a ∈ l1, AnnOk uid a) (h2 : ∀ a ∈ l2, AnnOk uid a) :
    ∀ a ∈ mergePageLists l1 l2, AnnOk uid a := by
  intro a ha
  rcases mem_mergePageLists ha with h | h
  · exact h1 a h
  · exact h2 a h

theorem mapOk_setPage {uid : String} {m : PageMap} {k : String} {v : PageVal}
    (hm : MapOk uid m) (hv : ValOk uid v) : MapOk uid (setPage m k v) := by
  intro kv hkv
  rcases mem_setPage hkv with h | h
  · rw [h]
    exact hv
  · exact hm kv h

theorem mapOk_delPage {uid : String} {m : PageMap} {k : String}
    (hm : MapOk uid m) : MapOk uid (delPage m k) :=
  fun kv hkv => hm kv (mem_delPage hkv)

theorem mapOk_nil {uid : String} : MapOk uid [] :=
  fun kv hkv => absurd hkv (List.not_mem_nil kv)

theorem cleanPageList_ok (uid : String) (now : Nat) (l : List RawAnn) :
    ∀ a ∈ cleanPageList uid now l, AnnOk uid a := by
  intro a ha
  rcases List.mem_map.mp ha with ⟨p, _, hpa⟩
  rw [← hpa]
  exact ⟨rfl, rfl⟩

theorem validate_mapOk (uid : String) (now : Nat)
    (entries : List (String × PageVal)) :
    MapOk uid (validateAnnotationData uid now entries) := by
  refine foldl_preserve (MapOk uid) (validateStep uid now) entries ?_ [] mapOk_nil
  intro acc kv _ hacc
  obtain ⟨k0, v0⟩ := kv
  cases v0 with
  | lst l =>
      show MapOk uid (if (cleanPageList uid now l).isEmpty = true then acc
        else setPage acc (normPageKey k0) (.lst (cleanPageList uid now l)))
      by_cases he : (cleanPageList uid now l).isEmpty = true
      · rw [if_pos he]
        exact hacc
      · rw [if_neg he]
        exact mapOk_setPage hacc (cleanPageList_ok uid now l)
  | dct x =>
      show MapOk uid (setPage acc (normPageKey k0) (.dct x))
      exact mapOk_setPage hacc trivial

theorem mapOk_mergeKindData {uid : String} (ex inc : PageMap)
    (hex : MapOk uid ex) (hinc : MapOk uid inc) :
    MapOk uid (mergeKindData ex inc) := by
  refine foldl_preserve (MapOk uid) mergeKindStep inc ?_ ex hex
  intro acc kv hkv hacc
  have hincv : ValOk uid kv.2 := hinc kv hkv
  obtain ⟨k0, v0⟩ := kv
  cases hl : lookupPage acc k0 with
  | none =>
      rw [show mergeKindStep acc (k0, v0) = setPage acc k0 v0 from by
        simp [mergeKindStep, hl]]
      exact mapOk_setPage hacc hincv
  | some pv =>
      have hpv : ValOk uid pv := hacc (k0, pv) (lookupPage_mem hl)
      cases v0 with
      | lst l =>
          rw [show mergeKindStep acc (k0, .lst l) =
              setPage acc k0 (.lst (mergePageLists (pageValList pv) l)) from by
            simp [mergeKindStep, hl]]
          refine mapOk_setPage hacc ?_
          show ∀ a ∈ mergePageLists (pageValList pv) l, AnnOk uid a
          exact merge_valOk (pageValList_ok hpv) hincv
      | dct x =>
          rw [show mergeKindStep acc (k0, .dct x) =
              setPage acc k0 (.lst (pageValList pv)) from by
            simp [mergeKindStep, hl]]
          refine mapOk_setPage hacc ?_
          show ∀ a ∈ pageValList pv, AnnOk uid a
          exact pageValList_ok hpv

theorem storeOk_setField {uid : String} {s : UserStore} {fld : AnnField}
    {m : PageMap} (hs : StoreOk uid s) (hm : MapOk uid m) :
    StoreOk uid (setField s fld m) := by
  intro fld'
  by_cases h : fld' = fld
  · rw [h, getField_setField]
    exact hm
  · rw [getField_setField_ne s fld fld' m h]
    exact hs fld'

theorem clearPage_preserves {uid : String} {s : UserStore} {n : Nat}
    (hs : StoreOk uid s) : StoreOk uid (clearPageAnnotations s n).1 := by
  refine foldl_preserve (fun p : UserStore × Nat => StoreOk uid p.1)
    (clearPageStep (toString n)) clearFields ?_ (s, 0) hs
  intro p fld _ hp
  cases hl : lookupPage (getField p.1 fld) (toString n) with
  | none =>
      rw [show clearPageStep (toString n) p fld = p from by simp [clearPageStep, hl]]
      exact hp
  | some pv =>
      rw [show clearPageStep (toString n) p fld =
          (setField p.1 fld (delPage (getField p.1 fld) (toString n)),
           p.2 + (pageValList pv).length) from by simp [clearPageStep, hl]]
      exact storeOk_setField hp (mapOk_delPage (hp fld))

theorem clearAll_preserves {uid : String} {s : UserStore}
    (hs : StoreOk uid s) : StoreOk uid (clearAllAnnotations s).1 := by
  refine foldl_preserve (fun p : UserStore × Nat => StoreOk uid p.1)
    clearAllStep clearFields ?_ (s, 0) hs
  intro p fld _ hp
  exact storeOk_setField hp mapOk_nil

theorem clearActionOne_preserves {uid : String} {s : UserStore} {a : RawAnn}
    (hs : StoreOk uid s) : StoreOk uid (clearActionOne s a) := by
  by_cases ht : a.typ = some "clear_action"
  · cases hact : (a.payload.getD Payload.empty).action with
    | none => simpa [clearActionOne, ht, hact] using hs
    | some act =>
        by_cases hp : act = "clear_page"
        · subst hp
          cases hpn : (a.payload.getD Payload.empty).pageNum with
          | none => simpa [clearActionOne, ht, hact, hpn] using hs
          | some n =>
              by_cases hn : n = 0
              · subst hn
                simpa [clearActionOne, ht, hact, hpn] using hs
              · simpa [clearActionOne, ht, hact, hpn, hn] using
                  (clearPage_preserves hs : StoreOk uid (clearPageAnnotations s n).1)
        · by_cases ha2 : act = "clear_all"
          · subst ha2
            simpa [clearActionOne, ht, hact] using
              (clearAll_preserves hs : StoreOk uid (clearAllAnnotations s).1)
          · simpa [clearActionOne, ht, hact, hp, ha2] using hs
  · simpa [clearActionOne, ht] using hs

theorem handleClearAction_preserves {uid : String} {s : UserStore}
    {data : List (String × PageVal)} (hs : StoreOk uid s) :
    StoreOk uid (handleClearAction s data) := by
  refine foldl_preserve (StoreOk uid) clearActionPage data ?_ s hs
  intro st kv _ hst
  obtain ⟨k0, v0⟩ := kv
  cases v0 with
  | dct x => exact hst
  | lst anns =>
      refine foldl_preserve (StoreOk uid) clearActionOne anns ?_ st hst
      intro st2 a _ hst2
      exact clearActionOne_preserves hst2

theorem saveAnnotationType_preserves {uid : String} {now : Nat}
    {s : UserStore} {t : String} {data : TypeData} (hs : StoreOk uid s) :
    StoreOk uid (saveAnnotationType uid now s t data).1 := by
  by_cases hca : t = "clear_action"
  · cases data with
    | dictData entries =>
        rw [show (saveAnnotationType uid now s t (.dictData entries)).1 =
            handleClearAction s entries from by simp [saveAnnotationType, hca]]
        exact handleClearAction_preserves hs
    | intData n =>
        rw [show (saveAnnotationType uid now s t (.intData n)).1 = s from by
          simp [saveAnnotationType, hca]]
        exact hs
    | strData x =>
        rw [show (saveAnnotationType uid now s t (.strData x)).1 = s from by
          simp [saveAnnotationType, hca]]
        exact hs
  · by_cases hf : data.falsy = true
    · rw [show (saveAnnotationType uid now s t data).1 =
          setField s (saveFieldMapping t) [] from by
        simp [saveAnnotationType, hca, hf]]
      exact storeOk_setField hs mapOk_nil
    · cases data with
      | dictData entries =>
          rw [show (saveAnnotationType uid now s t (.dictData entries)).1 =
              setField s (saveFieldMapping t)
                (mergeKindData (getField s (saveFieldMapping t))
                  (validateAnnotationData uid now entries)) from by
            simp [saveAnnotationType, hca, hf]]
          exact storeOk_setField hs
            (mapOk_mergeKindData _ _ (hs _) (validate_mapOk uid now entries))
      | intData n =>
          rw [show (saveAnnotationType uid now s t (.intData n)).1 = s from by
            simp [saveAnnotationType, hca, hf]]
          exact hs
      | strData x =>
          rw [show (saveAnnotationType uid now s t (.strData x)).1 = s from by
            simp [saveAnnotationType, hca, hf]]
          exact hs

theorem applyDeletion_preserves {uid : String} {s : UserStore} {d : Deletion}
    (hs : StoreOk uid s) : StoreOk uid (applyDeletion s d) := by
  by_cases hc : deletionComplete d = true
  · cases hl : lookupPage (getField s (deletionFieldMapping (d.typ.getD "")))
        (toString (d.pageNum.getD 0)) with
    | none =>
        rw [show applyDeletion s d = s from by simp [applyDeletion, hc, hl]]
        exact hs
    | some pv =>
        cases pv with
        | dct x =>
            rw [show applyDeletion s d = s from by simp [applyDeletion, hc, hl]]
            exact hs
        | lst anns =>
            have hanns : ValOk uid (.lst anns) :=
              hs (deletionFieldMapping (d.typ.getD ""))
                (toString (d.pageNum.getD 0), .lst anns) (lookupPage_mem hl)
            by_cases he : (anns.filter (fun a => a.id != d.id)).isEmpty = true
            · rw [show applyDeletion s d =
                  setField s (deletionFieldMapping (d.typ.getD ""))
                    (delPage (getField s (deletionFieldMapping (d.typ.getD "")))
                      (toString (d.pageNum.getD 0))) from by
                simp [applyDeletion, hc, hl, he]]
              exact storeOk_setField hs (mapOk_delPage (hs _))
            · rw [show applyDeletion s d =
                  setField s (deletionFieldMapping (d.typ.getD ""))
                    (setPage (getField s (deletionFieldMapping (d.typ.getD "")))
                      (toString (d.pageNum.getD 0))
                      (.lst (anns.filter (fun a => a.id != d.id)))) from by
                simp [applyDeletion, hc, hl, he]]
              refine storeOk_setField hs (mapOk_setPage (hs _) ?_)
              show ∀ a ∈ anns.filter (fun a => a.id != d.id), AnnOk uid a
              intro a ha
              exact hanns a (List.mem_of_mem_filter ha)
  · rw [show applyDeletion s d = s from by simp [applyDeletion, hc]]
    exact hs

theorem handleDeletions_preserves {uid : String} {s : UserStore}
    {ds : List Deletion} (hs : StoreOk uid s) :
    StoreOk uid (handleDeletions s ds) := by
  refine foldl_preserve (StoreOk uid) applyDeletion ds ?_ s hs
  intro st d _ hst
  exact applyDeletion_preserves hst

theorem getField_set_current_page (s : UserStore) (n : Int) (fld : AnnField) :
    getField { s with current_page := n } fld = getField s fld := by
  cases fld <;> rfl

theorem updateCurrentPage_preserves {uid : String} {s : UserStore}
    {ad : List (String × TypeData)} (hs : StoreOk uid s) :
    StoreOk uid (updateCurrentPage s ad) := by
  cases hlt : lookupType ad "currentPage" with
  | none =>
      rw [show updateCurrentPage s ad = s from by simp [updateCurrentPage, hlt]]
      exact hs
  | some td =>
      cases hti : typeDataInt td with
      | none =>
          rw [show updateCurrentPage s ad = s from by
            simp [updateCurrentPage, hlt, hti]]
          exact hs
      | some n =>
          by_cases hn : n = s.current_page
          · rw [show updateCurrentPage s ad = s from by
              simp [updateCurrentPage, hlt, hti, hn]]
            exact hs
          · rw [show updateCurrentPage s ad = { s with current_page := n } from by
              simp [updateCurrentPage, hlt, hti, hn]]
            intro fld
            rw [getField_set_current_page]
            exact hs fld

theorem processKinds_preserves {uid : String} {now : Nat} {s : UserStore}
    {ad : List (String × TypeData)} (hs : StoreOk uid s) :
    StoreOk uid (processKinds uid now s ad).1 := by
  refine foldl_preserve (fun p : UserStore × List String => StoreOk uid p.1)
    (processKindsStep uid now) ad ?_ (s, []) hs
  intro p kv _ hp
  exact saveAnnotationType_preserves hp

theorem handleSave_preserves {uid : String} {now : Nat} {s : UserStore}
    {data : Option SaveData} (hs : StoreOk uid s) :
    StoreOk uid (handleSaveAnnotations uid now s data).1 := by
  cases data with
  | none => exact hs
  | some d =>
      by_cases hu : d.userId.getD uid = uid
      case neg =>
        rw [show (handleSaveAnnotations uid now s (some d)).1 = s from by
          simp [handleSaveAnnotations, hu]]
        exact hs
      case pos =>
      by_cases hd : d.deletions.isEmpty = true
      · by_cases hb : d.ann_data.isEmpty = true
        · rw [show (handleSaveAnnotations uid now s (some d)).1 = s from by
            simp [handleSaveAnnotations, hu, hd, hb]]
          exact hs
        · rw [show (handleSaveAnnotations uid now s (some d)).1 =
              updateCurrentPage (processKinds uid now s d.ann_data).1 d.ann_data from by
            simp [handleSaveAnnotations, hu, hd, hb]]
          exact updateCurrentPage_preserves (processKinds_preserves hs)
      · rw [show (handleSaveAnnotations uid now s (some d)).1 =
            updateCurrentPage
              (processKinds uid now (handleDeletions s d.deletions) d.ann_data).1
              d.ann_data from by
          simp [handleSaveAnnotations, hu, hd]]
        exact updateCurrentPage_preserves
          (processKinds_preserves (handleDeletions_preserves hs))

/-- C10: every annotation cleaned by `_validate_annotation_data` carries
the caller's own user id (whatever userId was submitted) and a present id
(generated when absent); the cleaned data as a whole is clean; and the
cleanliness of every stored page list (each entry has `userId = caller`
and a present `id`) is preserved by every save request. -/
theorem stored_anns_clean (uid : String) (now : Nat) :
    (∀ (idx : Nat) (a : RawAnn),
      (cleanAnn uid now idx a).userId = some uid ∧
      (cleanAnn uid now idx a).id.isSome = true) ∧
    (∀ (entries : List (String × PageVal)) (kv : String × PageVal),
      kv ∈ validateAnnotationData uid now entries → ValOk uid kv.2) ∧
    (∀ (s : UserStore) (data : Option SaveData),
      StoreOk uid s → StoreOk uid (handleSaveAnnotations uid now s data).1) := by
  refine ⟨fun idx a => ⟨rfl, rfl⟩, ?_, ?_⟩
  · intro entries kv hkv
    exact validate_mapOk uid now entries kv hkv
  · intro s data hs
    exact handleSave_preserves hs

/-- A submitted annotation with a foreign userId and no id, and a save
request carrying it. -/
def aEvil : RawAnn := ⟨none, none, some "evil", none, none, none⟩

def dEvil : SaveData := ⟨none, [("highlights", .dictData [("1", .lst [aEvil])])], []⟩

theorem storeOk_storeW (uid : String) : StoreOk uid storeW := by
  intro fld kv hkv
  cases fld <;> exact absurd hkv (List.not_mem_nil kv)

/-- Witness for C10: cleaning a foreign-user, id-less annotation, and one
save of it into the empty store. -/
theorem stored_anns_clean_witness :
    ((cleanAnn "u1" 0 0 aEvil).userId = some "u1" ∧
     (cleanAnn "u1" 0 0 aEvil).id.isSome = true) ∧
    StoreOk "u1" (handleSaveAnnotations "u1" 0 storeW (some dEvil)).1 :=
  ⟨(stored_anns_clean "u1" 0).1 0 aEvil,
   (stored_anns_clean "u1" 0).2.2 storeW (some dEvil) (storeOk_storeW "u1")⟩

end Pdfx
